import Mathlib

/-!
# simulate.js : stochastic local search over physics parameters

A shallow embedding of `src/simulate.js`.

Numbers are modelled as exact rationals (`ℚ`); the one infinite value the
program uses, the initial `bestScore = -Infinity`, is the bottom element of
`WithBot ℚ`.  Each call of `Math.random()` is an explicit argument `u`, so
the sampler is a function of the seed and of the five draws it consumes.
The browser page is an explicit `Window` value holding the three globals the
script touches (`MOVE`, `L`, `P`), each of them possibly absent.
-/

namespace Simulate

/-! ## Config sampler (lines 17-33) -/

/-- The object literal built by `randomConfig`: five numeric fields. -/
structure Config where
  RUN : ℚ
  AIR_ACCEL : ℚ
  RUN_DECEL : ℚ
  JUMP_V : ℚ
  GRAV : ℚ
  deriving DecidableEq, Repr

/-- The five values returned by the successive calls of `Math.random()` made
while one configuration is sampled, in call order. -/
structure Draws where
  uRUN : ℚ
  uAIR_ACCEL : ℚ
  uRUN_DECEL : ℚ
  uJUMP_V : ℚ
  uGRAV : ℚ
  deriving DecidableEq, Repr

/-- Every draw lies in `[0, 1)`, as `Math.random()` guarantees. -/
def Draws.InUnit (d : Draws) : Prop :=
  (0 ≤ d.uRUN ∧ d.uRUN < 1) ∧ (0 ≤ d.uAIR_ACCEL ∧ d.uAIR_ACCEL < 1) ∧
  (0 ≤ d.uRUN_DECEL ∧ d.uRUN_DECEL < 1) ∧ (0 ≤ d.uJUMP_V ∧ d.uJUMP_V < 1) ∧
  (0 ≤ d.uGRAV ∧ d.uGRAV < 1)

/-- The function `randIn(base, pct)` with the value `u` of `Math.random()` made
explicit: `span = base * pct; return base + (u * 2 - 1) * span`. -/
def randIn (base pct u : ℚ) : ℚ :=
  let span := base * pct
  base + (u * 2 - 1) * span

/-- The literal on the right of `best || { ... }` in `randomConfig`. -/
def defaultSeed : Config :=
  { RUN := 260, AIR_ACCEL := 1100, RUN_DECEL := 2400, JUMP_V := 420, GRAV := 980 }

/-- The function `randomConfig(best)`: `best` is `null` (`none`) or a configuration object;
`seed = best || default`, then every field is `Math.max(floor, randIn(seed.p, pct))`. -/
def randomConfig (best : Option Config) (d : Draws) : Config :=
  let seed := best.getD defaultSeed
  { RUN := max 120 (randIn seed.RUN (35 / 100) d.uRUN)
    AIR_ACCEL := max 300 (randIn seed.AIR_ACCEL (50 / 100) d.uAIR_ACCEL)
    RUN_DECEL := max 600 (randIn seed.RUN_DECEL (45 / 100) d.uRUN_DECEL)
    JUMP_V := max 220 (randIn seed.JUMP_V (35 / 100) d.uJUMP_V)
    GRAV := max 500 (randIn seed.GRAV (35 / 100) d.uGRAV) }

/-! ## Fitness evaluator (lines 35-40) -/

/-- The object read out of the page at the end of an episode (lines 97-104). -/
structure Stats where
  x : ℚ
  coins : ℚ
  hp : ℚ
  enemies : ℕ
  deriving DecidableEq, Repr

/-- The function `fitnessSample(s)`: `aliveBonus = s.hp > 0 ? 200 : 0`, then
`s.coins * 300 + s.x * 0.6 + aliveBonus`. -/
def fitnessSample (s : Stats) : ℚ :=
  let aliveBonus : ℚ := if s.hp > 0 then 200 else 0
  s.coins * 300 + s.x * (6 / 10) + aliveBonus

/-! ## The page globals touched by the script (lines 60-69 and 97-104) -/

/-- A plain object with numeric values: its own keys, in insertion order. -/
abbrev Obj := List (String × ℚ)

/-- The test `k in o` on a plain object: `k` is one of its own keys (the names a
configuration carries are not inherited properties of a plain object). -/
def Obj.has (o : Obj) (k : String) : Bool :=
  o.any (fun e => e.1 == k)

/-- The read `o[k]`, `none` standing for `undefined`. -/
def Obj.get (o : Obj) (k : String) : Option ℚ :=
  (o.find? (fun e => e.1 == k)).map Prod.snd

/-- Own keys of the object, in order. -/
def Obj.keys (o : Obj) : List String :=
  o.map Prod.fst

/-- The assignment `o[k] = v`: overwrites the value of an existing key in
place, and appends a new key otherwise. -/
def Obj.set (o : Obj) (k : String) (v : ℚ) : Obj :=
  if o.has k then o.map (fun e => if e.1 == k then (e.1, v) else e) else o ++ [(k, v)]

/-- The configuration as the object the script passes to the page: the keys
that `for (const k in cfg)` enumerates, in order, with their values. -/
def Config.entries (c : Config) : Obj :=
  [("RUN", c.RUN), ("AIR_ACCEL", c.AIR_ACCEL), ("RUN_DECEL", c.RUN_DECEL),
   ("JUMP_V", c.JUMP_V), ("GRAV", c.GRAV)]

/-- One turn of the loop body on line 62:
`if (window.MOVE && k in window.MOVE) window.MOVE[k] = cfg[k]`. -/
def applyKey (MOVE : Option Obj) (e : String × ℚ) : Option Obj :=
  match MOVE with
  | some o => if o.has e.1 then some (o.set e.1 e.2) else some o
  | none => none

/-- Line 62: `for (const k in cfg) { ... }` run on `window.MOVE`. -/
def applyConfig (MOVE : Option Obj) (cfg : Config) : Option Obj :=
  cfg.entries.foldl applyKey MOVE

/-- The fields of `window.P` that the script reads or writes. -/
structure Player where
  x : ℚ
  y : ℚ
  vx : ℚ
  vy : ℚ
  hp : ℚ
  coins : ℚ
  h : ℚ
  deriving DecidableEq, Repr

/-- The fields of `window.L` that the script reads: `groundY`, and the length
of `enemies` when that array exists. -/
structure Level where
  groundY : ℚ
  enemies : Option ℕ
  deriving DecidableEq, Repr

/-- The three globals of the page, each possibly absent. -/
structure Window where
  MOVE : Option Obj
  L : Option Level
  P : Option Player
  deriving DecidableEq, Repr

/-- Lines 64-68: `if (window.L && window.P) { P.x = 80; P.y = L.groundY - P.h - 2;
P.vx = 0; P.vy = 0; P.hp = 3; P.coins = 0 }`. -/
def resetPlayer (w : Window) : Window :=
  match w.L, w.P with
  | some l, some p =>
    { w with P := some { p with x := 80, y := l.groundY - p.h - 2,
                                vx := 0, vy := 0, hp := 3, coins := 0 } }
  | _, _ => w

/-- The whole function evaluated in the page on lines 60-69: mutate `MOVE`,
then reset the player. -/
def pageSetup (w : Window) (cfg : Config) : Window :=
  resetPlayer { w with MOVE := applyConfig w.MOVE cfg }

/-- Lines 97-104: `{ x: P?.x ?? 0, coins: P?.coins ?? 0, hp: P?.hp ?? 0,
enemies: L?.enemies?.length ?? 0 }`. -/
def readStats (w : Window) : Stats :=
  { x := (w.P.map Player.x).getD 0
    coins := (w.P.map Player.coins).getD 0
    hp := (w.P.map Player.hp).getD 0
    enemies := (w.L.bind Level.enemies).getD 0 }

/-! ## Search controller (lines 45-48 and 106-125) -/

/-- The two variables of the main loop: `bestCfg` (`none` is `null`) and
`bestScore` (`⊥` is `-Infinity`). -/
structure SearchState where
  bestCfg : Option Config
  bestScore : WithBot ℚ
  deriving DecidableEq

/-- Lines 45-46: `let bestCfg = null; let bestScore = -Infinity;`. -/
def initState : SearchState :=
  { bestCfg := none, bestScore := ⊥ }

/-- Lines 114-118 on one (candidate, score) pair:
`if (score > bestScore) { bestScore = score; bestCfg = cfg; }`. -/
def keepBest (st : SearchState) (p : Config × WithBot ℚ) : SearchState :=
  if p.2 > st.bestScore then { bestCfg := some p.1, bestScore := p.2 } else st

/-- The compare-and-keep-best step folded over the per-iteration
(candidate, score) pairs, from the initial state. -/
def runPairs (l : List (Config × WithBot ℚ)) : SearchState :=
  l.foldl keepBest initState

/-- What one iteration takes from outside the script: the five random draws,
the page as it stands once the game is started, and what the game makes of the
page while the bot plays. -/
structure Episode where
  draws : Draws
  page : Window
  play : Window → Window

/-- The candidate of one iteration (line 59) and its score (line 106). -/
def evaluate (st : SearchState) (e : Episode) : Config × WithBot ℚ :=
  let cfg := randomConfig st.bestCfg e.draws
  let stats := readStats (e.play (pageSetup e.page cfg))
  (cfg, ((fitnessSample stats : ℚ) : WithBot ℚ))

/-- One turn of the `for` loop of lines 48-121. -/
def iteration (st : SearchState) (e : Episode) : SearchState :=
  keepBest st (evaluate st e)

/-- The `for` loop over `ITERS` episodes, from the initial state; the result
is the pair the script prints on lines 123-125. -/
def mainLoop (es : List Episode) : SearchState :=
  es.foldl iteration initState

/-- The (candidate, score) pairs of the successive iterations, the loop being
entered in state `st`. -/
def traceFrom (st : SearchState) : List Episode → List (Config × WithBot ℚ)
  | [] => []
  | e :: es => evaluate st e :: traceFrom (iteration st e) es

/-- The (candidate, score) pairs of a whole run. -/
def trace (es : List Episode) : List (Config × WithBot ℚ) :=
  traceFrom initState es

/-- The largest of a list of scores, `-Infinity` for the empty list. -/
def maxScore (l : List (Config × WithBot ℚ)) : WithBot ℚ :=
  (l.map Prod.snd).foldr max ⊥

/-- The candidate of the earliest pair whose score is `s`, if any. -/
def firstWithScore (s : WithBot ℚ) (l : List (Config × WithBot ℚ)) : Option Config :=
  (l.find? (fun p => decide (p.2 = s))).map Prod.fst

/-- A page left with a stale player and no level object. -/
def stalePage : Window :=
  { MOVE := none, L := none,
    P := some { x := 900, y := 10, vx := 4, vy := -2, hp := 1, coins := 7, h := 32 } }

/-! ## Sampler lemmas -/

theorem randIn_sub_base (base pct u : ℚ) :
    randIn base pct u - base = (u * 2 - 1) * (base * pct) := by
  simp only [randIn]; ring

theorem abs_two_mul_sub_one_le {u : ℚ} (h0 : 0 ≤ u) (h1 : u < 1) : |u * 2 - 1| ≤ 1 := by
  rw [abs_le]; constructor <;> linarith

theorem randIn_abs_le {base pct u : ℚ} (hp : 0 ≤ pct) (h0 : 0 ≤ u) (h1 : u < 1) :
    |randIn base pct u - base| ≤ pct * |base| := by
  rw [randIn_sub_base, abs_mul, abs_mul, abs_of_nonneg hp]
  have h := abs_two_mul_sub_one_le h0 h1
  have hb : 0 ≤ |base| * pct := mul_nonneg (abs_nonneg _) hp
  calc |u * 2 - 1| * (|base| * pct) ≤ 1 * (|base| * pct) :=
        mul_le_mul_of_nonneg_right h hb
    _ = pct * |base| := by ring

/-! ## Claims about the sampler -/

/-- C1 (floor law). For every seed, the absent one included, and every five
draws, `randomConfig` returns `RUN ≥ 120`, `AIR_ACCEL ≥ 300`, `RUN_DECEL ≥ 600`,
`JUMP_V ≥ 220` and `GRAV ≥ 500`; in particular every value is strictly positive. -/
theorem randomConfig_floor (best : Option Config) (d : Draws) :
    (120 ≤ (randomConfig best d).RUN ∧ 300 ≤ (randomConfig best d).AIR_ACCEL ∧
      600 ≤ (randomConfig best d).RUN_DECEL ∧ 220 ≤ (randomConfig best d).JUMP_V ∧
      500 ≤ (randomConfig best d).GRAV) ∧
    (0 < (randomConfig best d).RUN ∧ 0 < (randomConfig best d).AIR_ACCEL ∧
      0 < (randomConfig best d).RUN_DECEL ∧ 0 < (randomConfig best d).JUMP_V ∧
      0 < (randomConfig best d).GRAV) := by
  have h1 : (120 : ℚ) ≤ (randomConfig best d).RUN := le_max_left _ _
  have h2 : (300 : ℚ) ≤ (randomConfig best d).AIR_ACCEL := le_max_left _ _
  have h3 : (600 : ℚ) ≤ (randomConfig best d).RUN_DECEL := le_max_left _ _
  have h4 : (220 : ℚ) ≤ (randomConfig best d).JUMP_V := le_max_left _ _
  have h5 : (500 : ℚ) ≤ (randomConfig best d).GRAV := le_max_left _ _
  refine ⟨⟨h1, h2, h3, h4, h5⟩, ?_, ?_, ?_, ?_, ?_⟩ <;> linarith

/-- C2 (bounded-perturbation law). For `pct ≥ 0` and a draw `u` in `[0,1)` the
value `randIn base pct u` differs from `base` by at most `pct * |base|`, and for
`base ≥ 0` it lies between `base * (1 - pct)` and `base * (1 + pct)`.
`randomConfig` uses the fractions 0.35, 0.50, 0.45, 0.35 and 0.35: whenever the
pre-floor value of a field is at or above its floor, the returned field is that
value and is within the fraction of the seed's field. -/
theorem randIn_bounded :
    (∀ base pct u : ℚ, 0 ≤ pct → 0 ≤ u → u < 1 →
      |randIn base pct u - base| ≤ pct * |base|) ∧
    (∀ base pct u : ℚ, 0 ≤ base → 0 ≤ pct → 0 ≤ u → u < 1 →
      base * (1 - pct) ≤ randIn base pct u ∧ randIn base pct u ≤ base * (1 + pct)) ∧
    (∀ (best : Option Config) (d : Draws), d.InUnit →
      (120 ≤ randIn (best.getD defaultSeed).RUN (35 / 100) d.uRUN →
        (randomConfig best d).RUN = randIn (best.getD defaultSeed).RUN (35 / 100) d.uRUN ∧
        |(randomConfig best d).RUN - (best.getD defaultSeed).RUN|
          ≤ 35 / 100 * |(best.getD defaultSeed).RUN|) ∧
      (300 ≤ randIn (best.getD defaultSeed).AIR_ACCEL (50 / 100) d.uAIR_ACCEL →
        (randomConfig best d).AIR_ACCEL
          = randIn (best.getD defaultSeed).AIR_ACCEL (50 / 100) d.uAIR_ACCEL ∧
        |(randomConfig best d).AIR_ACCEL - (best.getD defaultSeed).AIR_ACCEL|
          ≤ 50 / 100 * |(best.getD defaultSeed).AIR_ACCEL|) ∧
      (600 ≤ randIn (best.getD defaultSeed).RUN_DECEL (45 / 100) d.uRUN_DECEL →
        (randomConfig best d).RUN_DECEL
          = randIn (best.getD defaultSeed).RUN_DECEL (45 / 100) d.uRUN_DECEL ∧
        |(randomConfig best d).RUN_DECEL - (best.getD defaultSeed).RUN_DECEL|
          ≤ 45 / 100 * |(best.getD defaultSeed).RUN_DECEL|) ∧
      (220 ≤ randIn (best.getD defaultSeed).JUMP_V (35 / 100) d.uJUMP_V →
        (randomConfig best d).JUMP_V
          = randIn (best.getD defaultSeed).JUMP_V (35 / 100) d.uJUMP_V ∧
        |(randomConfig best d).JUMP_V - (best.getD defaultSeed).JUMP_V|
          ≤ 35 / 100 * |(best.getD defaultSeed).JUMP_V|) ∧
      (500 ≤ randIn (best.getD defaultSeed).GRAV (35 / 100) d.uGRAV →
        (randomConfig best d).GRAV = randIn (best.getD defaultSeed).GRAV (35 / 100) d.uGRAV ∧
        |(randomConfig best d).GRAV - (best.getD defaultSeed).GRAV|
          ≤ 35 / 100 * |(best.getD defaultSeed).GRAV|)) := by
  refine ⟨fun base pct u hp h0 h1 => randIn_abs_le hp h0 h1, ?_, ?_⟩
  · intro base pct u hb hp h0 h1
    have h := @randIn_abs_le base pct u hp h0 h1
    rw [abs_of_nonneg hb, abs_le] at h
    constructor <;> nlinarith [h.1, h.2]
  · intro best d hd
    obtain ⟨⟨a0, a1⟩, ⟨b0, b1⟩, ⟨c0, c1⟩, ⟨e0, e1⟩, ⟨g0, g1⟩⟩ := hd
    refine ⟨?_, ?_, ?_, ?_, ?_⟩ <;> intro hfl
    · have he : (randomConfig best d).RUN
          = randIn (best.getD defaultSeed).RUN (35 / 100) d.uRUN := max_eq_right hfl
      exact ⟨he, he ▸ randIn_abs_le (by norm_num) a0 a1⟩
    · have he : (randomConfig best d).AIR_ACCEL
          = randIn (best.getD defaultSeed).AIR_ACCEL (50 / 100) d.uAIR_ACCEL :=
        max_eq_right hfl
      exact ⟨he, he ▸ randIn_abs_le (by norm_num) b0 b1⟩
    · have he : (randomConfig best d).RUN_DECEL
          = randIn (best.getD defaultSeed).RUN_DECEL (45 / 100) d.uRUN_DECEL :=
        max_eq_right hfl
      exact ⟨he, he ▸ randIn_abs_le (by norm_num) c0 c1⟩
    · have he : (randomConfig best d).JUMP_V
          = randIn (best.getD defaultSeed).JUMP_V (35 / 100) d.uJUMP_V := max_eq_right hfl
      exact ⟨he, he ▸ randIn_abs_le (by norm_num) e0 e1⟩
    · have he : (randomConfig best d).GRAV
          = randIn (best.getD defaultSeed).GRAV (35 / 100) d.uGRAV := max_eq_right hfl
      exact ⟨he, he ▸ randIn_abs_le (by norm_num) g0 g1⟩

/-- C8 (scenario A). With a zero fraction `randIn` returns its base whatever the
draw; every value of the default seed is at or above its floor; so clamping the
zero-fraction sample of each default value to its floor gives back the default
seed exactly. -/
theorem zero_perturbation_returns_seed :
    (∀ base u : ℚ, randIn base 0 u = base) ∧
    (120 ≤ defaultSeed.RUN ∧ 300 ≤ defaultSeed.AIR_ACCEL ∧ 600 ≤ defaultSeed.RUN_DECEL ∧
      220 ≤ defaultSeed.JUMP_V ∧ 500 ≤ defaultSeed.GRAV) ∧
    (∀ d : Draws,
      ({ RUN := max 120 (randIn defaultSeed.RUN 0 d.uRUN)
         AIR_ACCEL := max 300 (randIn defaultSeed.AIR_ACCEL 0 d.uAIR_ACCEL)
         RUN_DECEL := max 600 (randIn defaultSeed.RUN_DECEL 0 d.uRUN_DECEL)
         JUMP_V := max 220 (randIn defaultSeed.JUMP_V 0 d.uJUMP_V)
         GRAV := max 500 (randIn defaultSeed.GRAV 0 d.uGRAV) } : Config) = defaultSeed) := by
  have h0 : ∀ base u : ℚ, randIn base 0 u = base := by
    intro base u; simp [randIn]
  refine ⟨h0, by norm_num [defaultSeed], ?_⟩
  intro d
  simp only [h0]
  norm_num [defaultSeed]

/-- Witness for C2: the three parts at the default seed with all draws `1/4`. -/
theorem randIn_bounded_witness :
    |randIn 260 (35 / 100) (1 / 4) - 260| ≤ 35 / 100 * |(260 : ℚ)| ∧
    (260 * (1 - 35 / 100) ≤ randIn 260 (35 / 100) (1 / 4) ∧
      randIn 260 (35 / 100) (1 / 4) ≤ 260 * (1 + 35 / 100)) ∧
    ((randomConfig none ⟨1 / 4, 1 / 4, 1 / 4, 1 / 4, 1 / 4⟩).RUN
        = randIn ((none : Option Config).getD defaultSeed).RUN (35 / 100) (1 / 4) ∧
      |(randomConfig none ⟨1 / 4, 1 / 4, 1 / 4, 1 / 4, 1 / 4⟩).RUN
          - ((none : Option Config).getD defaultSeed).RUN|
        ≤ 35 / 100 * |((none : Option Config).getD defaultSeed).RUN|) :=
  ⟨randIn_bounded.1 260 (35 / 100) (1 / 4) (by norm_num) (by norm_num) (by norm_num),
   randIn_bounded.2.1 260 (35 / 100) (1 / 4) (by norm_num) (by norm_num) (by norm_num)
     (by norm_num),
   (randIn_bounded.2.2 none ⟨1 / 4, 1 / 4, 1 / 4, 1 / 4, 1 / 4⟩
     (by norm_num [Draws.InUnit])).1 (by norm_num [randIn, defaultSeed])⟩

/-! ## Claims about the fitness evaluator -/

/-- C3. For every observation, `fitnessSample` is `coins * 300 + x * 0.6` plus
200 when `hp > 0`; the `enemies` field has no influence; the observation
`x = 500, coins = 3, hp = 0, enemies = 2` scores 1200 and the same with `hp = 2`
scores 1400. -/
theorem fitnessSample_formula :
    (∀ s : Stats, fitnessSample s
      = s.coins * 300 + s.x * (6 / 10) + (if s.hp > 0 then 200 else 0)) ∧
    (∀ (s : Stats) (n : ℕ), fitnessSample { s with enemies := n } = fitnessSample s) ∧
    fitnessSample { x := 500, coins := 3, hp := 0, enemies := 2 } = 1200 ∧
    fitnessSample { x := 500, coins := 3, hp := 2, enemies := 2 } = 1400 := by
  refine ⟨fun s => rfl, fun s n => rfl, ?_, ?_⟩ <;> norm_num [fitnessSample]

/-- C4 (fitness monotonicity). With `x` and `hp` fixed, more coins never lower
the score; with `coins` and `hp` fixed, a larger `x` never lowers it; and with
`coins` and `x` equal, an observation with `hp > 0` scores strictly more than
one with `hp = 0`. -/
theorem fitnessSample_monotone :
    (∀ (x hp c1 c2 : ℚ) (n m : ℕ), c1 ≤ c2 →
      fitnessSample { x := x, coins := c1, hp := hp, enemies := n }
        ≤ fitnessSample { x := x, coins := c2, hp := hp, enemies := m }) ∧
    (∀ (coins hp x1 x2 : ℚ) (n m : ℕ), x1 ≤ x2 →
      fitnessSample { x := x1, coins := coins, hp := hp, enemies := n }
        ≤ fitnessSample { x := x2, coins := coins, hp := hp, enemies := m }) ∧
    (∀ (x coins hp : ℚ) (n m : ℕ), 0 < hp →
      fitnessSample { x := x, coins := coins, hp := 0, enemies := n }
        < fitnessSample { x := x, coins := coins, hp := hp, enemies := m }) := by
  refine ⟨?_, ?_, ?_⟩
  · intro x hp c1 c2 n m h
    simp only [fitnessSample]
    linarith
  · intro coins hp x1 x2 n m h
    simp only [fitnessSample]
    linarith
  · intro x coins hp n m h
    simp only [fitnessSample, gt_iff_lt, lt_self_iff_false, if_false, if_pos h]
    linarith

/-- Witness for C4: 3 against 5 coins, 100 against 500 of distance, dead
against alive. -/
theorem fitnessSample_monotone_witness :
    fitnessSample { x := 500, coins := 3, hp := 1, enemies := 0 }
      ≤ fitnessSample { x := 500, coins := 5, hp := 1, enemies := 0 } ∧
    fitnessSample { x := 100, coins := 3, hp := 1, enemies := 0 }
      ≤ fitnessSample { x := 500, coins := 3, hp := 1, enemies := 0 } ∧
    fitnessSample { x := 500, coins := 3, hp := 0, enemies := 2 }
      < fitnessSample { x := 500, coins := 3, hp := 2, enemies := 2 } :=
  ⟨fitnessSample_monotone.1 500 1 3 5 0 0 (by norm_num),
   fitnessSample_monotone.2.1 3 1 100 500 0 0 (by norm_num),
   fitnessSample_monotone.2.2 500 3 2 2 2 (by norm_num)⟩

/-! ## Search controller lemmas -/

theorem keepBest_bestScore (st : SearchState) (p : Config × WithBot ℚ) :
    (keepBest st p).bestScore = max st.bestScore p.2 := by
  unfold keepBest
  split
  · next h => exact (max_eq_right (le_of_lt h)).symm
  · next h => exact (max_eq_left (not_lt.mp h)).symm

theorem keepBest_of_le (st : SearchState) (p : Config × WithBot ℚ)
    (h : p.2 ≤ st.bestScore) : keepBest st p = st := by
  unfold keepBest
  rw [if_neg (not_lt.mpr h)]

theorem keepBest_of_lt (st : SearchState) (p : Config × WithBot ℚ)
    (h : st.bestScore < p.2) : keepBest st p = { bestCfg := some p.1, bestScore := p.2 } := by
  unfold keepBest
  rw [if_pos h]

theorem foldl_keepBest_bestScore (l : List (Config × WithBot ℚ)) (st : SearchState) :
    (l.foldl keepBest st).bestScore = max st.bestScore (maxScore l) := by
  induction l generalizing st with
  | nil => simp [maxScore]
  | cons p t ih =>
    rw [List.foldl_cons, ih, keepBest_bestScore]
    simp only [maxScore, List.map_cons, List.foldr_cons] at *
    exact max_assoc _ _ _

theorem le_maxScore {l : List (Config × WithBot ℚ)} {p : Config × WithBot ℚ} (h : p ∈ l) :
    p.2 ≤ maxScore l := by
  induction l with
  | nil => cases h
  | cons q t ih =>
    simp only [maxScore, List.map_cons, List.foldr_cons] at *
    rcases List.mem_cons.mp h with rfl | h
    · exact le_max_left _ _
    · exact le_trans (ih h) (le_max_right _ _)

theorem foldl_keepBest_of_le (l : List (Config × WithBot ℚ)) (st : SearchState)
    (h : ∀ p ∈ l, p.2 ≤ st.bestScore) : l.foldl keepBest st = st := by
  induction l with
  | nil => rfl
  | cons p t ih =>
    rw [List.foldl_cons, keepBest_of_le st p (h p (List.mem_cons_self _ _))]
    exact ih (fun q hq => h q (List.mem_cons_of_mem _ hq))

theorem foldl_keepBest_lt (l : List (Config × WithBot ℚ)) (st : SearchState)
    (h : ∃ p ∈ l, st.bestScore < p.2) : st.bestScore < (l.foldl keepBest st).bestScore := by
  obtain ⟨p, hp, hlt⟩ := h
  rw [foldl_keepBest_bestScore]
  exact lt_of_lt_of_le hlt (le_trans (le_maxScore hp) (le_max_right _ _))

/-- Once some score beats the entry state, the kept candidate is the one of the
earliest pair whose score is the final best score. -/
theorem foldl_keepBest_bestCfg (l : List (Config × WithBot ℚ)) (st : SearchState)
    (h : ∃ p ∈ l, st.bestScore < p.2) :
    (l.foldl keepBest st).bestCfg = firstWithScore (l.foldl keepBest st).bestScore l := by
  induction l generalizing st with
  | nil => obtain ⟨p, hp, _⟩ := h; cases hp
  | cons p t ih =>
    rw [List.foldl_cons]
    by_cases hp : st.bestScore < p.2
    · rw [keepBest_of_lt st p hp]
      by_cases ht : ∃ q ∈ t, p.2 < q.2
      · have hlt := foldl_keepBest_lt t { bestCfg := some p.1, bestScore := p.2 } ht
        rw [ih _ ht]
        have hne : p.2 ≠ (t.foldl keepBest { bestCfg := some p.1, bestScore := p.2 }).bestScore :=
          ne_of_lt hlt
        simp [firstWithScore, List.find?_cons, hne]
      · have hle : ∀ q ∈ t, q.2 ≤ p.2 := by
          intro q hq
          by_contra hc
          exact ht ⟨q, hq, not_le.mp hc⟩
        rw [foldl_keepBest_of_le t { bestCfg := some p.1, bestScore := p.2 } hle]
        simp [firstWithScore, List.find?_cons]
    · rw [keepBest_of_le st p (not_lt.mp hp)]
      have ht : ∃ q ∈ t, st.bestScore < q.2 := by
        obtain ⟨q, hq, hlt⟩ := h
        rcases List.mem_cons.mp hq with rfl | hq
        · exact absurd hlt hp
        · exact ⟨q, hq, hlt⟩
      have hlt := foldl_keepBest_lt t st ht
      rw [ih _ ht]
      have hne : p.2 ≠ (t.foldl keepBest st).bestScore :=
        ne_of_lt (lt_of_le_of_lt (not_lt.mp hp) hlt)
      simp [firstWithScore, List.find?_cons, hne]

theorem foldl_iteration_eq (es : List Episode) (st : SearchState) :
    es.foldl iteration st = (traceFrom st es).foldl keepBest st := by
  induction es generalizing st with
  | nil => rfl
  | cons e t ih =>
    simp only [List.foldl_cons, traceFrom]
    rw [ih]
    rfl

theorem mainLoop_eq_runPairs (es : List Episode) : mainLoop es = runPairs (trace es) :=
  foldl_iteration_eq es initState

theorem traceFrom_finite (es : List Episode) (st : SearchState) :
    ∀ p ∈ traceFrom st es, p.2 ≠ ⊥ := by
  induction es generalizing st with
  | nil => intro p hp; cases hp
  | cons e t ih =>
    intro p hp
    simp only [traceFrom] at hp
    rcases List.mem_cons.mp hp with rfl | hp
    · exact WithBot.coe_ne_bot
    · exact ih _ p hp

theorem traceFrom_length (es : List Episode) (st : SearchState) :
    (traceFrom st es).length = es.length := by
  induction es generalizing st with
  | nil => rfl
  | cons e t ih => simp [traceFrom, ih]

/-! ## Claims about the search controller -/

/-- C5 (greedy-update law, score part). The compare-and-keep-best step never
lowers `bestScore`; folded over the (candidate, score) pairs from `-Infinity`,
`bestScore` after every iteration is the maximum of the scores seen so far (an
upper bound of all of them, attained by one of them when there is any), and it
does not decrease when one more iteration is run. The same holds for the loop
of the script. -/
theorem bestScore_running_max :
    (∀ (st : SearchState) (p : Config × WithBot ℚ),
      st.bestScore ≤ (keepBest st p).bestScore) ∧
    (∀ l : List (Config × WithBot ℚ), (runPairs l).bestScore = maxScore l) ∧
    (∀ (l : List (Config × WithBot ℚ)) (p : Config × WithBot ℚ),
      p ∈ l → p.2 ≤ (runPairs l).bestScore) ∧
    (∀ l : List (Config × WithBot ℚ), l ≠ [] → ∃ p ∈ l, p.2 = (runPairs l).bestScore) ∧
    (∀ (l : List (Config × WithBot ℚ)) (p : Config × WithBot ℚ),
      (runPairs l).bestScore ≤ (runPairs (l ++ [p])).bestScore) ∧
    (∀ es : List Episode, (mainLoop es).bestScore = maxScore (trace es)) ∧
    (∀ (es : List Episode) (e : Episode),
      (mainLoop es).bestScore ≤ (mainLoop (es ++ [e])).bestScore) := by
  have hmax : ∀ l : List (Config × WithBot ℚ), (runPairs l).bestScore = maxScore l := by
    intro l
    unfold runPairs
    rw [foldl_keepBest_bestScore]
    exact max_eq_right bot_le
  refine ⟨?_, hmax, ?_, ?_, ?_, ?_, ?_⟩
  · intro st p
    rw [keepBest_bestScore]
    exact le_max_left _ _
  · intro l p hp
    rw [hmax]
    exact le_maxScore hp
  · intro l hl
    rw [hmax]
    induction l with
    | nil => exact absurd rfl hl
    | cons q t ih =>
      by_cases ht : t = []
      · subst ht
        exact ⟨q, List.mem_cons_self _ _, by simp [maxScore]⟩
      · obtain ⟨r, hr, hrm⟩ := ih ht
        have hcons : maxScore (q :: t) = max q.2 (maxScore t) := rfl
        rcases le_total (maxScore t) q.2 with h | h
        · exact ⟨q, List.mem_cons_self _ _, by rw [hcons, max_eq_left h]⟩
        · exact ⟨r, List.mem_cons_of_mem _ hr, by rw [hcons, max_eq_right h, hrm]⟩
  · intro l p
    unfold runPairs
    rw [List.foldl_append, List.foldl_cons, List.foldl_nil, keepBest_bestScore]
    exact le_max_left _ _
  · intro es
    rw [mainLoop_eq_runPairs, hmax]
  · intro es e
    unfold mainLoop
    rw [List.foldl_append, List.foldl_cons, List.foldl_nil]
    unfold iteration
    rw [keepBest_bestScore]
    exact le_max_left _ _

/-- Witness for C5: three iterations scoring 5, 9 and 7. -/
theorem bestScore_running_max_witness :
    ((defaultSeed, (9 : WithBot ℚ)) ∈
        [(defaultSeed, (5 : WithBot ℚ)), (defaultSeed, 9), (defaultSeed, 7)] ∧
      (9 : WithBot ℚ)
        ≤ (runPairs [(defaultSeed, (5 : WithBot ℚ)), (defaultSeed, 9), (defaultSeed, 7)]).bestScore) ∧
    ∃ p ∈ [(defaultSeed, (5 : WithBot ℚ)), (defaultSeed, 9), (defaultSeed, 7)],
      p.2 = (runPairs [(defaultSeed, (5 : WithBot ℚ)), (defaultSeed, 9), (defaultSeed, 7)]).bestScore :=
  ⟨⟨by simp, bestScore_running_max.2.2.1 _ (defaultSeed, 9) (by simp)⟩,
   bestScore_running_max.2.2.2.1 _ (by simp)⟩

/-- C6 (greedy-update law, candidate part). Once the iterations run so far
include a finite score, `bestCfg` is the candidate of the earliest iteration
whose score equals the current `bestScore`; a candidate whose score is lower
than or equal to `bestScore` leaves the state unchanged; and in a run of five
iterations whose third score is strictly the highest, the final state is the
third candidate with the third score. The loop of the script, whose scores are
all finite, obeys the first part after every iteration. -/
theorem bestCfg_earliest_best :
    (∀ l : List (Config × WithBot ℚ), (∃ p ∈ l, p.2 ≠ ⊥) →
      (runPairs l).bestCfg = firstWithScore (runPairs l).bestScore l) ∧
    (∀ (st : SearchState) (p : Config × WithBot ℚ),
      p.2 ≤ st.bestScore → keepBest st p = st) ∧
    (∀ (c1 c2 c3 c4 c5 : Config) (s1 s2 s3 s4 s5 : WithBot ℚ),
      s1 < s3 → s2 < s3 → s4 < s3 → s5 < s3 →
      runPairs [(c1, s1), (c2, s2), (c3, s3), (c4, s4), (c5, s5)]
        = { bestCfg := some c3, bestScore := s3 }) ∧
    (∀ es : List Episode, es ≠ [] →
      (mainLoop es).bestCfg = firstWithScore (mainLoop es).bestScore (trace es)) := by
  have hfirst : ∀ l : List (Config × WithBot ℚ), (∃ p ∈ l, p.2 ≠ ⊥) →
      (runPairs l).bestCfg = firstWithScore (runPairs l).bestScore l := by
    intro l hl
    obtain ⟨p, hp, hne⟩ := hl
    exact foldl_keepBest_bestCfg l initState ⟨p, hp, bot_lt_iff_ne_bot.mpr hne⟩
  refine ⟨hfirst, keepBest_of_le, ?_, ?_⟩
  · intro c1 c2 c3 c4 c5 s1 s2 s3 s4 s5 h1 h2 h4 h5
    have hb : (⊥ : WithBot ℚ) < s3 := lt_of_le_of_lt bot_le h1
    simp only [runPairs, List.foldl_cons, List.foldl_nil]
    have e1 : (keepBest initState (c1, s1)).bestScore < s3 := by
      rw [keepBest_bestScore]; exact max_lt hb h1
    have e2 : (keepBest (keepBest initState (c1, s1)) (c2, s2)).bestScore < s3 := by
      rw [keepBest_bestScore]; exact max_lt e1 h2
    rw [keepBest_of_lt _ (c3, s3) e2, keepBest_of_le _ (c4, s4) (le_of_lt h4),
      keepBest_of_le _ (c5, s5) (le_of_lt h5)]
  · intro es hes
    rw [mainLoop_eq_runPairs]
    apply hfirst
    cases es with
    | nil => exact absurd rfl hes
    | cons e t =>
      exact ⟨evaluate initState e, List.mem_cons_self _ _,
        traceFrom_finite (e :: t) initState _ (List.mem_cons_self _ _)⟩

/-- Witness for C6: a run whose first score is `-Infinity` and whose next two
tie at 5; a non-improving candidate; five iterations scoring 1, 2, 9, 3 and 4;
and a one-episode run of the loop on a page without globals. -/
theorem bestCfg_earliest_best_witness :
    ((runPairs [(defaultSeed, ⊥), ({ defaultSeed with RUN := 200 }, 5),
        ({ defaultSeed with RUN := 300 }, 5)]).bestCfg
      = firstWithScore (runPairs [(defaultSeed, ⊥), ({ defaultSeed with RUN := 200 }, 5),
          ({ defaultSeed with RUN := 300 }, 5)]).bestScore
          [(defaultSeed, ⊥), ({ defaultSeed with RUN := 200 }, 5),
            ({ defaultSeed with RUN := 300 }, 5)]) ∧
    keepBest { bestCfg := some defaultSeed, bestScore := 9 } ({ defaultSeed with RUN := 200 }, 9)
      = { bestCfg := some defaultSeed, bestScore := 9 } ∧
    runPairs [(defaultSeed, 1), ({ defaultSeed with RUN := 200 }, 2),
        ({ defaultSeed with RUN := 300 }, 9), ({ defaultSeed with RUN := 310 }, 3),
        ({ defaultSeed with RUN := 320 }, 4)]
      = { bestCfg := some { defaultSeed with RUN := 300 }, bestScore := 9 } ∧
    (mainLoop [⟨⟨1 / 4, 1 / 4, 1 / 4, 1 / 4, 1 / 4⟩, ⟨none, none, none⟩, id⟩]).bestCfg
      = firstWithScore
          (mainLoop [⟨⟨1 / 4, 1 / 4, 1 / 4, 1 / 4, 1 / 4⟩, ⟨none, none, none⟩, id⟩]).bestScore
          (trace [⟨⟨1 / 4, 1 / 4, 1 / 4, 1 / 4, 1 / 4⟩, ⟨none, none, none⟩, id⟩]) :=
  ⟨bestCfg_earliest_best.1 _
      ⟨({ defaultSeed with RUN := 200 }, 5), by simp,
        by exact_mod_cast (WithBot.coe_ne_bot : ((5 : ℚ) : WithBot ℚ) ≠ ⊥)⟩,
   bestCfg_earliest_best.2.1 _ _ (le_refl _),
   bestCfg_earliest_best.2.2.1 _ _ _ _ _ 1 2 9 3 4
    (by exact_mod_cast (by norm_num : (1 : ℚ) < 9))
    (by exact_mod_cast (by norm_num : (2 : ℚ) < 9))
    (by exact_mod_cast (by norm_num : (3 : ℚ) < 9))
    (by exact_mod_cast (by norm_num : (4 : ℚ) < 9)),
   bestCfg_earliest_best.2.2.2 _ (by simp)⟩

/-- C7 as amended. The search state starts as `bestCfg = null` and
`bestScore = -Infinity`, and that is what a run of zero iterations reports;
`randomConfig` given `null` samples around the default configuration exactly
as if it were given that configuration, so the candidate of the first
iteration is sampled around the default. -/
theorem initial_state_null_seed :
    initState = { bestCfg := none, bestScore := ⊥ } ∧
    mainLoop [] = { bestCfg := none, bestScore := ⊥ } ∧
    (∀ d : Draws, randomConfig none d = randomConfig (some defaultSeed) d) ∧
    (∀ (e : Episode) (es : List Episode),
      (trace (e :: es)).head? = some (evaluate initState e) ∧
      (evaluate initState e).1 = randomConfig (some defaultSeed) e.draws) :=
  ⟨rfl, rfl, fun _ => rfl, fun _ _ => ⟨rfl, rfl⟩⟩

/-- C7 as stated fails: a run of zero iterations reports `null`, not the
default configuration, as its best. -/
theorem zero_iterations_best_not_default :
    (mainLoop []).bestCfg = none ∧ (mainLoop []).bestCfg ≠ some defaultSeed ∧
    initState.bestCfg ≠ some defaultSeed := by
  refine ⟨rfl, ?_, ?_⟩ <;> simp [mainLoop, initState]

/-! ## Object lemmas -/

theorem Obj.get_cons (a : String) (b : ℚ) (t : Obj) (k : String) :
    Obj.get ((a, b) :: t) k = if a = k then some b else Obj.get t k := by
  by_cases h : a = k
  · simp [Obj.get, List.find?_cons, h]
  · have hb : (a == k) = false := by simpa using h
    simp [Obj.get, List.find?_cons, h, hb]

theorem Obj.has_cons (a : String) (b : ℚ) (t : Obj) (k : String) :
    Obj.has ((a, b) :: t) k = (a == k || Obj.has t k) := rfl

theorem Obj.has_iff (o : Obj) (k : String) : o.has k = true ↔ k ∈ o.keys := by
  simp only [Obj.has, Obj.keys, List.any_eq_true, beq_iff_eq, List.mem_map]

theorem Obj.get_eq_none_of_not_has (o : Obj) (k : String) (h : o.has k = false) :
    o.get k = none := by
  induction o with
  | nil => rfl
  | cons e t ih =>
    obtain ⟨a, b⟩ := e
    rw [Obj.has_cons, Bool.or_eq_false_iff] at h
    have ha : ¬ a = k := by simpa using h.1
    rw [Obj.get_cons, if_neg ha]
    exact ih h.2

/-- The in-place overwrite of the value of key `k` keeps the keys. -/
theorem overwrite_keys (o : Obj) (k : String) (v : ℚ) :
    Obj.keys (o.map (fun e => if e.1 == k then (e.1, v) else e)) = o.keys := by
  unfold Obj.keys
  rw [List.map_map]
  apply List.map_congr_left
  intro e _
  show (if e.1 == k then (e.1, v) else e).1 = e.1
  split <;> rfl

theorem overwrite_get (o : Obj) (k k' : String) (v : ℚ) :
    Obj.get (o.map (fun e => if e.1 == k then (e.1, v) else e)) k'
      = if k' = k ∧ o.has k' = true then some v else o.get k' := by
  induction o with
  | nil => simp [Obj.get, Obj.has]
  | cons e t ih =>
    obtain ⟨a, b⟩ := e
    rw [List.map_cons, Obj.has_cons, Obj.get_cons]
    by_cases hk : a = k
    · have e1 : (if (a, b).1 == k then ((a, b).1, v) else (a, b)) = (a, v) := by simp [hk]
      rw [e1, Obj.get_cons, ih]
      by_cases hk' : a = k'
      · have hkk : k' = k := hk'.symm.trans hk
        simp [hk', hkk]
      · simp [hk']
    · have e1 : (if (a, b).1 == k then ((a, b).1, v) else (a, b)) = (a, b) := by simp [hk]
      rw [e1, Obj.get_cons, ih]
      by_cases hk' : a = k'
      · have hkk : ¬ k' = k := fun h => hk (hk'.trans h)
        simp [hk', hkk]
      · simp [hk']

theorem Obj.keys_set_of_has (o : Obj) (k : String) (v : ℚ) (h : o.has k = true) :
    (o.set k v).keys = o.keys := by
  unfold Obj.set
  rw [if_pos h]
  exact overwrite_keys o k v

theorem Obj.get_set_of_has (o : Obj) (k k' : String) (v : ℚ) (h : o.has k = true) :
    (o.set k v).get k' = if k' = k then some v else o.get k' := by
  unfold Obj.set
  rw [if_pos h, overwrite_get]
  by_cases hk : k' = k
  · rw [hk]; simp [h]
  · simp [hk]

theorem Obj.has_congr {o o' : Obj} (h : o'.keys = o.keys) (k : String) :
    o'.has k = o.has k := by
  rw [Bool.eq_iff_iff, Obj.has_iff, Obj.has_iff, h]

/-- One turn of the loop on a present `MOVE`: same keys, and only the value of
the key of the entry changes, when `MOVE` has that key. -/
theorem applyKey_some (o : Obj) (e : String × ℚ) :
    ∃ o', applyKey (some o) e = some o' ∧ o'.keys = o.keys ∧
      ∀ k, o'.get k = if k = e.1 ∧ o.has k = true then some e.2 else o.get k := by
  unfold applyKey
  by_cases h : o.has e.1 = true
  · refine ⟨o.set e.1 e.2, by simp [h], Obj.keys_set_of_has o e.1 e.2 h, ?_⟩
    intro k
    rw [Obj.get_set_of_has o e.1 k e.2 h]
    by_cases hk : k = e.1
    · rw [hk]; simp [h]
    · simp [hk]
  · refine ⟨o, by simp [h], rfl, ?_⟩
    intro k
    by_cases hk : k = e.1
    · rw [hk]; simp [h]
    · simp [hk]

theorem foldl_applyKey_none (es : Obj) : es.foldl applyKey none = none := by
  induction es with
  | nil => rfl
  | cons e t ih => exact ih

/-- The whole loop on a present `MOVE`, for entries with distinct keys. -/
theorem foldl_applyKey_some (es : Obj) (hnd : es.keys.Nodup) (o : Obj) :
    ∃ o', es.foldl applyKey (some o) = some o' ∧ o'.keys = o.keys ∧
      ∀ k, o'.get k = if o.has k = true then (es.get k).orElse (fun _ => o.get k) else none := by
  induction es generalizing o with
  | nil =>
    refine ⟨o, rfl, rfl, ?_⟩
    intro k
    by_cases h : o.has k = true
    · simp [h, Obj.get]
    · have hf : o.has k = false := by simpa using h
      simp [hf, Obj.get_eq_none_of_not_has o k hf]
  | cons e t ih =>
    obtain ⟨a, b⟩ := e
    have hnd' : a ∉ Obj.keys t ∧ (Obj.keys t).Nodup := by
      simpa [Obj.keys] using hnd
    obtain ⟨o1, h1, hk1, hg1⟩ := applyKey_some o (a, b)
    obtain ⟨o', h2, hk2, hg2⟩ := ih hnd'.2 o1
    refine ⟨o', ?_, hk2.trans hk1, ?_⟩
    · rw [List.foldl_cons, h1, h2]
    · intro k
      rw [hg2 k, Obj.has_congr hk1 k]
      by_cases h : o.has k = true
      · rw [if_pos h, if_pos h, hg1 k, Obj.get_cons]
        by_cases hk : a = k
        · have hnone : Obj.get t k = none := by
            apply Obj.get_eq_none_of_not_has
            have hnot : ¬ Obj.has t k = true := by
              rw [Obj.has_iff, ← hk]; exact hnd'.1
            simpa using hnot
          simp [hnone, h, hk]
        · have hk2 : ¬ k = a := fun h' => hk h'.symm
          simp [hk, hk2]
      · rw [if_neg h, if_neg h]

theorem Config.entries_nodup (c : Config) : c.entries.keys.Nodup := by
  simp [Config.entries, Obj.keys]

/-! ## Claims about the page set-up -/

/-- C9 (merge by existing key). An absent `MOVE` stays absent. On a present
`MOVE` the loop succeeds and leaves an object with exactly the keys it had, in
the same order; a key that `MOVE` has and the configuration has too holds the
configuration's value; a key the configuration does not have keeps its value;
and a key that `MOVE` did not have (one of the configuration's or any other) is
still absent afterwards. -/
theorem applyConfig_merge_existing :
    (∀ cfg : Config, applyConfig none cfg = none) ∧
    (∀ (cfg : Config) (o : Obj), ∃ o', applyConfig (some o) cfg = some o' ∧
      o'.keys = o.keys ∧
      (∀ (k : String) (v : ℚ), o.has k = true → cfg.entries.get k = some v →
        o'.get k = some v) ∧
      (∀ k : String, cfg.entries.get k = none → o'.get k = o.get k) ∧
      (∀ k : String, o.has k = false → o'.has k = false ∧ o'.get k = none)) := by
  refine ⟨fun cfg => foldl_applyKey_none _, ?_⟩
  intro cfg o
  obtain ⟨o', h1, hk, hg⟩ := foldl_applyKey_some cfg.entries cfg.entries_nodup o
  refine ⟨o', h1, hk, ?_, ?_, ?_⟩
  · intro k v hhas hcfg
    rw [hg k, if_pos hhas, hcfg]
    rfl
  · intro k hcfg
    rw [hg k, hcfg]
    by_cases h : o.has k = true
    · rw [if_pos h]; rfl
    · rw [if_neg h]
      exact (Obj.get_eq_none_of_not_has o k (by simpa using h)).symm
  · intro k hno
    have h' : o'.has k = false := by rw [Obj.has_congr hk k]; exact hno
    exact ⟨h', Obj.get_eq_none_of_not_has o' k h'⟩

/-- Witness for C9: the default configuration applied to a `MOVE` holding
`RUN` and a field the configuration does not know. -/
theorem applyConfig_merge_existing_witness :
    ∃ o', applyConfig (some [("RUN", 200), ("FRICTION", 5)]) defaultSeed = some o' ∧
      o'.keys = ["RUN", "FRICTION"] ∧ o'.get "RUN" = some 260 ∧
      o'.get "FRICTION" = some 5 ∧ o'.get "GRAV" = none := by
  obtain ⟨o', h1, hk, hboth, hkeep, habsent⟩ :=
    applyConfig_merge_existing.2 defaultSeed [("RUN", 200), ("FRICTION", 5)]
  refine ⟨o', h1, hk, hboth "RUN" 260 (by simp [Obj.has]) (by simp [Obj.get, Config.entries, defaultSeed]), ?_,
    (habsent "GRAV" (by simp [Obj.has])).2⟩
  rw [hkeep "FRICTION" (by simp [Obj.get, Config.entries])]
  simp [Obj.get]

/-- C10 as amended. When the page has both a level object `L` and a player
`P`, whatever the player's fields were, after the reset step (alone, or as
part of the whole page set-up) the player has `coins = 0`, `hp = 3`, `vx = 0`,
`vy = 0` and `x = 80`, and the statistics read at once report 0 coins, 3 hit
points and `x = 80`; when `L` or `P` is absent the reset step leaves the page
as it is. -/
theorem resetPlayer_canonical :
    (∀ (w : Window) (l : Level) (p : Player), w.L = some l → w.P = some p →
      ∃ p', (resetPlayer w).P = some p' ∧
        p'.coins = 0 ∧ p'.hp = 3 ∧ p'.vx = 0 ∧ p'.vy = 0 ∧ p'.x = 80 ∧
        (readStats (resetPlayer w)).coins = 0 ∧ (readStats (resetPlayer w)).hp = 3 ∧
        (readStats (resetPlayer w)).x = 80) ∧
    (∀ (w : Window) (cfg : Config) (l : Level) (p : Player), w.L = some l → w.P = some p →
      ∃ p', (pageSetup w cfg).P = some p' ∧
        p'.coins = 0 ∧ p'.hp = 3 ∧ p'.vx = 0 ∧ p'.vy = 0 ∧ p'.x = 80 ∧
        (readStats (pageSetup w cfg)).coins = 0) ∧
    (∀ w : Window, w.L = none ∨ w.P = none → resetPlayer w = w) := by
  refine ⟨?_, ?_, ?_⟩
  · intro w l p hL hP
    refine ⟨{ p with x := 80, y := l.groundY - p.h - 2, vx := 0, vy := 0, hp := 3, coins := 0 },
      ?_, rfl, rfl, rfl, rfl, rfl, ?_, ?_, ?_⟩ <;> simp [resetPlayer, readStats, hL, hP]
  · intro w cfg l p hL hP
    refine ⟨{ p with x := 80, y := l.groundY - p.h - 2, vx := 0, vy := 0, hp := 3, coins := 0 },
      ?_, rfl, rfl, rfl, rfl, rfl, ?_⟩ <;> simp [pageSetup, resetPlayer, readStats, hL, hP]
  · intro w h
    rcases h with h | h
    · simp [resetPlayer, h]
    · unfold resetPlayer
      rw [h]
      cases w.L <;> rfl

/-- Witness for C10 as amended: the stale page of the counterexample once it
has a level object, for the reset step alone and for the whole page set-up;
and the stale page itself, which the reset step leaves alone. -/
theorem resetPlayer_canonical_witness :
    (∃ p', (resetPlayer { stalePage with L := some { groundY := 400, enemies := some 2 } }).P
        = some p' ∧
      p'.coins = 0 ∧ p'.hp = 3 ∧ p'.vx = 0 ∧ p'.vy = 0 ∧ p'.x = 80) ∧
    (readStats (pageSetup { stalePage with L := some { groundY := 400, enemies := some 2 } }
      defaultSeed)).coins = 0 ∧
    resetPlayer stalePage = stalePage := by
  obtain ⟨p', h, h1, h2, h3, h4, h5, _⟩ :=
    resetPlayer_canonical.1 { stalePage with L := some { groundY := 400, enemies := some 2 } }
      { groundY := 400, enemies := some 2 }
      { x := 900, y := 10, vx := 4, vy := -2, hp := 1, coins := 7, h := 32 } rfl rfl
  obtain ⟨_, _, _, _, _, _, _, h6⟩ :=
    resetPlayer_canonical.2.1 { stalePage with L := some { groundY := 400, enemies := some 2 } }
      defaultSeed { groundY := 400, enemies := some 2 }
      { x := 900, y := 10, vx := 4, vy := -2, hp := 1, coins := 7, h := 32 } rfl rfl
  exact ⟨⟨p', h, h1, h2, h3, h4, h5⟩, h6, resetPlayer_canonical.2.2 stalePage (Or.inl rfl)⟩

/-- C10 as stated fails: on a page with a player holding 7 coins and no level
object, the reset step changes nothing, and the statistics read right after
the page set-up report 7 coins, 1 hit point and `x = 900`. -/
theorem reset_skipped_without_level :
    resetPlayer stalePage = stalePage ∧
    (readStats (pageSetup stalePage defaultSeed)).coins = 7 ∧
    (readStats (pageSetup stalePage defaultSeed)).coins ≠ 0 ∧
    (readStats (pageSetup stalePage defaultSeed)).hp ≠ 3 ∧
    (readStats (pageSetup stalePage defaultSeed)).x ≠ 80 := by
  have h : pageSetup stalePage defaultSeed = stalePage := by
    simp [pageSetup, resetPlayer, stalePage, applyConfig, foldl_applyKey_none]
  rw [h]
  refine ⟨rfl, ?_, ?_, ?_, ?_⟩ <;> norm_num [readStats, stalePage]

end Simulate
